import Mathlib

/-!
Shallow embedding of the USD-MCP stage cache
(`src/usd-mcp/server/stage_manager.py` and
`src/usd-ai/usd-mcp/server/utils/validation.py`).

The external world (filesystem predicates, `Path.resolve`, the USD engine's
`Usd.Stage.Open`, stage truthiness, `GetRootLayer`) is an abstract
environment `Env`.  Stage handles are opaque `Nat` identifiers.  The
engine's open call either returns a handle object or raises (modelled with
`Except`); the Python truthiness test `if not stage` on the returned object
is `Env.stageTruthy`.  The cache dictionary is an association list with
Python-dict semantics (assignment replaces in place, insertion order kept).
The `opens` counter instruments how many times `Usd.Stage.Open` was
invoked, mirroring the spec's "exactly one underlying open" tests.
-/

namespace StageCache

/-- Abstract external environment: filesystem, path resolution, USD engine. -/
structure Env where
  /-- `str(Path(p).resolve())`: canonicalize a path to absolute form. -/
  resolve : String → String
  /-- `Path(p).exists()` -/
  pathExists : String → Bool
  /-- `Path(p).is_file()` -/
  isFile : String → Bool
  /-- `os.access(p, os.R_OK)` -/
  readable : String → Bool
  /-- `Usd.Stage.Open(normalized_path)`: given the path and the number of
  opens performed so far (so fresh calls can yield fresh handles), either
  raises (`Except.error msg`) or returns a stage object. -/
  openStage : String → Nat → Except String Nat
  /-- Python truthiness of a stage object (`if not stage`). -/
  stageTruthy : Nat → Bool
  /-- Truthiness of `stage.GetRootLayer()`: root-layer resolvability. -/
  rootLayerTruthy : Nat → Bool
  /-- `stage.GetRootLayer().identifier` -/
  rootLayerId : Nat → String
  /-- `stage.HasDefaultPrim()` -/
  hasDefaultPrim : Nat → Bool

/-- Split a character list at every `'/'`. -/
def splitSlash : List Char → List (List Char)
  | [] => [[]]
  | c :: rest =>
    let r := splitSlash rest
    if c = '/' then [] :: r
    else (c :: r.headD []) :: r.tail

/-- `Path(p).name` : last nonempty path component. -/
def pathName (p : String) : String :=
  String.mk (((splitSlash p.data).filter (fun c => c ≠ [])).getLastD [])

/-- `Path(p).suffix` : `name[i:]` where `i = name.rfind('.')`,
if `0 < i < len(name) - 1`, else the empty string. -/
def pathSuffix (p : String) : String :=
  let name := (pathName p).data
  let ext := name.reverse.takeWhile (fun c => c ≠ '.')
  if ext.length + 1 < name.length ∧ 0 < ext.length then
    String.mk ('.' :: ext.reverse)
  else ""

/-- Python `str.lower()`, on the ASCII range relevant to extensions. -/
def strLower (s : String) : String :=
  String.mk (s.data.map Char.toLower)

/-- `valid_extensions` in `validation.py`. -/
def valid_extensions : List String := [".usd", ".usda", ".usdc", ".usdz"]

/-- `validate_file_path` from `utils/validation.py` (lines 8–37). -/
def validate_file_path (env : Env) (file_path : String) : Bool × String :=
  if file_path = "" then
    (false, "File path cannot be empty")
  else if !env.pathExists file_path then
    (false, "File does not exist: " ++ file_path)
  else if !env.isFile file_path then
    (false, "Path is not a file: " ++ file_path)
  else if !env.readable file_path then
    (false, "File is not readable: " ++ file_path)
  else if !(valid_extensions.contains (strLower (pathSuffix file_path))) then
    (false, "File does not have a valid USD extension: " ++ file_path)
  else
    (true, "")

/-- Python-dict lookup `d.get(k)` / `d[k]` on the association list. -/
def lookupKey (c : List (String × Nat)) (k : String) : Option Nat :=
  match c with
  | [] => none
  | (k', v) :: rest => if k' = k then some v else lookupKey rest k

/-- Python-dict deletion `del d[k]` (a dict has at most one entry per key). -/
def eraseKey (c : List (String × Nat)) (k : String) : List (String × Nat) :=
  match c with
  | [] => []
  | (k', v) :: rest => if k' = k then eraseKey rest k else (k', v) :: eraseKey rest k

/-- Python-dict assignment `d[k] = v`: replace in place or append. -/
def insertKey (c : List (String × Nat)) (k : String) (v : Nat) :
    List (String × Nat) :=
  match c with
  | [] => [(k, v)]
  | (k', v') :: rest =>
    if k' = k then (k, v) :: rest else (k', v') :: insertKey rest k v

/-- State of a `USDStageManager`: the `_stage_cache` dict, plus an
instrumentation counter of how many engine opens have been performed. -/
structure ManagerState where
  cache : List (String × Nat)
  opens : Nat
deriving DecidableEq, Repr

/-- The fresh manager of `__init__`: empty cache, no opens yet. -/
def initState : ManagerState := ⟨[], 0⟩

/-- Lines 46–57 of `load_stage`: `stage = Usd.Stage.Open(normalized_path)`
inside `try`, the `if not stage` failure return, caching and success
return, and the `except` branch turning a raise into an error value. -/
def openAndCache (env : Env) (s : ManagerState)
    (file_path normalized_path : String) :
    (Option Nat × Option String) × ManagerState :=
  match env.openStage normalized_path s.opens with
  | Except.ok stage =>
    if !env.stageTruthy stage then
      ((none, some ("Failed to open USD stage: " ++ file_path)),
        { s with opens := s.opens + 1 })
    else
      ((some stage, none),
        { cache := insertKey s.cache normalized_path stage,
          opens := s.opens + 1 })
  | Except.error e =>
    ((none, some ("Error loading USD stage: " ++ e)),
      { s with opens := s.opens + 1 })

/-- `USDStageManager.load_stage` (lines 18–57). -/
def load_stage (env : Env) (s : ManagerState) (file_path : String) :
    (Option Nat × Option String) × ManagerState :=
  match validate_file_path env file_path with
  | (false, error_msg) => ((none, some error_msg), s)
  | (true, _) =>
    let normalized_path := env.resolve file_path
    match lookupKey s.cache normalized_path with
    | some stage =>
      if env.stageTruthy stage && env.rootLayerTruthy stage then
        ((some stage, none), s)
      else
        openAndCache env { s with cache := eraseKey s.cache normalized_path }
          file_path normalized_path
    | none => openAndCache env s file_path normalized_path

/-- `USDStageManager.get_cached_stage` (lines 59–70). -/
def get_cached_stage (env : Env) (s : ManagerState) (file_path : String) :
    Option Nat :=
  lookupKey s.cache (env.resolve file_path)

/-- `USDStageManager.clear_cache` (lines 72–74). -/
def clear_cache (s : ManagerState) : ManagerState :=
  { s with cache := [] }

/-- `USDStageManager.remove_from_cache` (lines 76–90). -/
def remove_from_cache (env : Env) (s : ManagerState) (file_path : String) :
    Bool × ManagerState :=
  let normalized_path := env.resolve file_path
  match lookupKey s.cache normalized_path with
  | some _ => (true, { s with cache := eraseKey s.cache normalized_path })
  | none => (false, s)

/-- The per-entry record produced by `get_cache_info`. -/
inductive StageInfo where
  | valid (root_layer : String) (has_default_prim : Bool)
  | invalid (error : String)
deriving DecidableEq, Repr

/-- `USDStageManager.get_cache_info` (lines 92–113). -/
def get_cache_info (env : Env) (s : ManagerState) :
    List (String × StageInfo) :=
  s.cache.map (fun e =>
    if env.stageTruthy e.2 && env.rootLayerTruthy e.2 then
      (e.1, StageInfo.valid (env.rootLayerId e.2) (env.hasDefaultPrim e.2))
    else
      (e.1, StageInfo.invalid "Invalid stage in cache"))

/-- One public operation of the manager. -/
inductive Op where
  | loadOp (p : String)
  | getCachedOp (p : String)
  | clearOp
  | removeOp (p : String)
  | cacheInfoOp

/-- State effect of one public operation (`get_cached_stage` and
`get_cache_info` are read-only). -/
def step (env : Env) (s : ManagerState) : Op → ManagerState
  | Op.loadOp p => (load_stage env s p).2
  | Op.getCachedOp _ => s
  | Op.clearOp => clear_cache s
  | Op.removeOp p => (remove_from_cache env s p).2
  | Op.cacheInfoOp => s

/-- States reachable from the fresh manager by public operations. -/
inductive Reachable (env : Env) : ManagerState → Prop where
  | init : Reachable env initState
  | step {s : ManagerState} (o : Op) :
      Reachable env s → Reachable env (step env s o)

/-- Number of entries stored under key `k`. -/
def keyCount : List (String × Nat) → String → Nat
  | [], _ => 0
  | (k', _) :: rest, k => (if k' = k then 1 else 0) + keyCount rest k

/-- Concrete environment for tests: every path exists as a readable file,
resolution maps every path to `"c.usda"`, opening always yields the live
stage handle `5`. -/
def envOkay : Env where
  resolve := fun _ => "c.usda"
  pathExists := fun _ => true
  isFile := fun _ => true
  readable := fun _ => true
  openStage := fun _ _ => Except.ok 5
  stageTruthy := fun _ => true
  rootLayerTruthy := fun _ => true
  rootLayerId := fun _ => "c.usda"
  hasDefaultPrim := fun _ => false

/-- Concrete environment whose engine raises on every open. -/
def envRaise : Env where
  resolve := fun p => p
  pathExists := fun _ => true
  isFile := fun _ => true
  readable := fun _ => true
  openStage := fun _ _ => Except.error "boom"
  stageTruthy := fun _ => true
  rootLayerTruthy := fun _ => true
  rootLayerId := fun _ => ""
  hasDefaultPrim := fun _ => false

/-- Concrete environment whose engine returns a stage whose root layer is
not resolvable (a handle that went stale). -/
def envStale : Env where
  resolve := fun p => p
  pathExists := fun _ => true
  isFile := fun _ => true
  readable := fun _ => true
  openStage := fun _ _ => Except.ok 0
  stageTruthy := fun _ => true
  rootLayerTruthy := fun _ => false
  rootLayerId := fun _ => ""
  hasDefaultPrim := fun _ => false

/-- The cache dictionary is well-formed: keys are pairwise distinct. -/
def WF (s : ManagerState) : Prop :=
  (s.cache.map Prod.fst).Nodup

theorem lookupKey_insertKey_self (c : List (String × Nat)) (k : String)
    (v : Nat) : lookupKey (insertKey c k v) k = some v := by
  induction c with
  | nil => simp [insertKey, lookupKey]
  | cons e rest ih =>
    rcases e with ⟨ek, ev⟩
    by_cases h : ek = k <;> simp [insertKey, lookupKey, h, ih]

theorem lookupKey_insertKey_ne (c : List (String × Nat)) (k k' : String)
    (v : Nat) (h : k' ≠ k) :
    lookupKey (insertKey c k v) k' = lookupKey c k' := by
  have h' : ¬(k = k') := fun hk => h hk.symm
  induction c with
  | nil => simp [insertKey, lookupKey, h']
  | cons e rest ih =>
    rcases e with ⟨ek, ev⟩
    by_cases he : ek = k
    · subst he
      simp [insertKey, lookupKey, h']
    · simp [insertKey, lookupKey, he, ih]

theorem lookupKey_eraseKey_self (c : List (String × Nat)) (k : String) :
    lookupKey (eraseKey c k) k = none := by
  induction c with
  | nil => simp [eraseKey, lookupKey]
  | cons e rest ih =>
    rcases e with ⟨ek, ev⟩
    by_cases h : ek = k
    · simpa [eraseKey, h] using ih
    · simp [eraseKey, lookupKey, h, ih]

theorem lookupKey_eraseKey_ne (c : List (String × Nat)) (k k' : String)
    (h : k' ≠ k) : lookupKey (eraseKey c k) k' = lookupKey c k' := by
  induction c with
  | nil => simp [eraseKey, lookupKey]
  | cons e rest ih =>
    rcases e with ⟨ek, ev⟩
    by_cases he : ek = k
    · subst he
      have hne : ¬(ek = k') := fun hk => h hk.symm
      simp [eraseKey, lookupKey, hne, ih]
    · simp [eraseKey, lookupKey, he, ih]

theorem keyCount_eq_zero (c : List (String × Nat)) (k : String)
    (h : lookupKey c k = none) : keyCount c k = 0 := by
  induction c with
  | nil => simp [keyCount]
  | cons e rest ih =>
    rcases e with ⟨ek, ev⟩
    by_cases he : ek = k
    · simp [lookupKey, he] at h
    · simp [lookupKey, he] at h
      simp [keyCount, he, ih h]

theorem keyCount_insertKey (c : List (String × Nat)) (k : String) (v : Nat)
    (h : lookupKey c k = none) : keyCount (insertKey c k v) k = 1 := by
  induction c with
  | nil => simp [insertKey, keyCount]
  | cons e rest ih =>
    rcases e with ⟨ek, ev⟩
    by_cases he : ek = k
    · simp [lookupKey, he] at h
    · simp [lookupKey, he] at h
      simp [insertKey, keyCount, he, ih h]

theorem mem_insertKey (c : List (String × Nat)) (k : String) (v : Nat)
    (e : String × Nat) (h : e ∈ insertKey c k v) : e ∈ c ∨ e = (k, v) := by
  induction c with
  | nil =>
    simp [insertKey] at h
    simp [h]
  | cons e' rest ih =>
    rcases e' with ⟨ek, ev⟩
    by_cases he : ek = k
    · simp [insertKey, he] at h
      rcases h with h | h
      · exact Or.inr (by simp [h])
      · exact Or.inl (List.mem_cons_of_mem _ h)
    · simp [insertKey, he] at h
      rcases h with h | h
      · exact Or.inl (by simp [h])
      · rcases ih h with h' | h'
        · exact Or.inl (List.mem_cons_of_mem _ h')
        · exact Or.inr h'

theorem mem_of_lookupKey (c : List (String × Nat)) (k : String) (v : Nat)
    (h : lookupKey c k = some v) : (k, v) ∈ c := by
  induction c with
  | nil => simp [lookupKey] at h
  | cons e rest ih =>
    rcases e with ⟨ek, ev⟩
    by_cases he : ek = k
    · subst he
      simp [lookupKey] at h
      subst h
      exact List.mem_cons_self _ _
    · simp [lookupKey, he] at h
      exact List.mem_cons_of_mem _ (ih h)

theorem mem_eraseKey (c : List (String × Nat)) (k : String)
    (e : String × Nat) (h : e ∈ eraseKey c k) : e ∈ c := by
  induction c with
  | nil => simp [eraseKey] at h
  | cons e' rest ih =>
    rcases e' with ⟨ek, ev⟩
    by_cases he : ek = k
    · simp [eraseKey, he] at h
      exact List.mem_cons_of_mem _ (ih h)
    · simp [eraseKey, he] at h
      rcases h with h | h
      · rw [h]
        exact List.mem_cons_self _ _
      · exact List.mem_cons_of_mem _ (ih h)

theorem fst_mem_insertKey (c : List (String × Nat)) (k : String) (v : Nat)
    (a : String) (h : a ∈ (insertKey c k v).map Prod.fst) :
    a ∈ c.map Prod.fst ∨ a = k := by
  simp only [List.mem_map] at h
  rcases h with ⟨e, he, ha⟩
  rcases mem_insertKey c k v e he with h' | h'
  · exact Or.inl (List.mem_map.2 ⟨e, h', ha⟩)
  · subst h'
    exact Or.inr ha.symm

theorem fst_mem_eraseKey (c : List (String × Nat)) (k : String)
    (a : String) (h : a ∈ (eraseKey c k).map Prod.fst) :
    a ∈ c.map Prod.fst := by
  simp only [List.mem_map] at h
  rcases h with ⟨e, he, ha⟩
  exact List.mem_map.2 ⟨e, mem_eraseKey c k e he, ha⟩

theorem nodup_insertKey (c : List (String × Nat)) (k : String) (v : Nat)
    (h : (c.map Prod.fst).Nodup) :
    ((insertKey c k v).map Prod.fst).Nodup := by
  induction c with
  | nil => simp [insertKey]
  | cons e rest ih =>
    rcases e with ⟨ek, ev⟩
    simp only [List.map_cons, List.nodup_cons] at h
    by_cases he : ek = k
    · subst he
      simpa [insertKey] using h
    · simp only [insertKey, he, if_false, List.map_cons, List.nodup_cons]
      refine ⟨?_, ih h.2⟩
      intro hx
      rcases fst_mem_insertKey rest k v ek hx with h' | h'
      · exact h.1 h'
      · exact he h'

theorem nodup_eraseKey (c : List (String × Nat)) (k : String)
    (h : (c.map Prod.fst).Nodup) :
    ((eraseKey c k).map Prod.fst).Nodup := by
  induction c with
  | nil => simp [eraseKey]
  | cons e rest ih =>
    rcases e with ⟨ek, ev⟩
    simp only [List.map_cons, List.nodup_cons] at h
    by_cases he : ek = k
    · simpa [eraseKey, he] using ih h.2
    · simp only [eraseKey, he, if_false, List.map_cons, List.nodup_cons]
      exact ⟨fun hx => h.1 (fst_mem_eraseKey rest k ek hx), ih h.2⟩

theorem load_stage_of_validate_false (env : Env) (s : ManagerState)
    (p : String) (h : (validate_file_path env p).1 = false) :
    load_stage env s p = ((none, some (validate_file_path env p).2), s) := by
  unfold load_stage
  rcases hv : validate_file_path env p with ⟨b, m⟩
  rw [hv] at h
  simp only at h
  subst h
  simp

theorem load_stage_of_miss (env : Env) (s : ManagerState) (p : String)
    (hv : (validate_file_path env p).1 = true)
    (hm : lookupKey s.cache (env.resolve p) = none) :
    load_stage env s p = openAndCache env s p (env.resolve p) := by
  unfold load_stage
  rcases hveq : validate_file_path env p with ⟨b, m⟩
  rw [hveq] at hv
  simp only at hv
  subst hv
  simp [hm]

theorem load_stage_of_hit_valid (env : Env) (s : ManagerState) (p : String)
    (st : Nat) (hv : (validate_file_path env p).1 = true)
    (hh : lookupKey s.cache (env.resolve p) = some st)
    (hval : (env.stageTruthy st && env.rootLayerTruthy st) = true) :
    load_stage env s p = ((some st, none), s) := by
  unfold load_stage
  rcases hveq : validate_file_path env p with ⟨b, m⟩
  rw [hveq] at hv
  simp only at hv
  subst hv
  simp [hh, hval]

theorem load_stage_of_hit_invalid (env : Env) (s : ManagerState) (p : String)
    (st : Nat) (hv : (validate_file_path env p).1 = true)
    (hh : lookupKey s.cache (env.resolve p) = some st)
    (hval : (env.stageTruthy st && env.rootLayerTruthy st) = false) :
    load_stage env s p =
      openAndCache env { s with cache := eraseKey s.cache (env.resolve p) }
        p (env.resolve p) := by
  unfold load_stage
  rcases hveq : validate_file_path env p with ⟨b, m⟩
  rw [hveq] at hv
  simp only at hv
  subst hv
  simp [hh, hval]

theorem openAndCache_of_ok (env : Env) (s : ManagerState)
    (fp np : String) (st : Nat)
    (ho : env.openStage np s.opens = Except.ok st)
    (ht : env.stageTruthy st = true) :
    openAndCache env s fp np =
      ((some st, none), ⟨insertKey s.cache np st, s.opens + 1⟩) := by
  unfold openAndCache
  rw [ho]
  simp [ht]

theorem openAndCache_of_falsy (env : Env) (s : ManagerState)
    (fp np : String) (st : Nat)
    (ho : env.openStage np s.opens = Except.ok st)
    (ht : env.stageTruthy st = false) :
    openAndCache env s fp np =
      ((none, some ("Failed to open USD stage: " ++ fp)),
        { s with opens := s.opens + 1 }) := by
  unfold openAndCache
  rw [ho]
  simp [ht]

theorem openAndCache_of_error (env : Env) (s : ManagerState)
    (fp np : String) (e : String)
    (ho : env.openStage np s.opens = Except.error e) :
    openAndCache env s fp np =
      ((none, some ("Error loading USD stage: " ++ e)),
        { s with opens := s.opens + 1 }) := by
  unfold openAndCache
  rw [ho]

theorem openAndCache_opens (env : Env) (s : ManagerState) (fp np : String) :
    (openAndCache env s fp np).2.opens = s.opens + 1 := by
  unfold openAndCache
  rcases env.openStage np s.opens with e | st
  · rfl
  · by_cases ht : env.stageTruthy st <;> simp [ht]

theorem openAndCache_none_cache (env : Env) (s : ManagerState)
    (fp np : String) (h : (openAndCache env s fp np).1.1 = none) :
    (openAndCache env s fp np).2.cache = s.cache := by
  unfold openAndCache at h ⊢
  rcases ho : env.openStage np s.opens with e | st
  · rfl
  · rw [ho] at h
    by_cases ht : env.stageTruthy st <;> simp [ht] at h ⊢

theorem openAndCache_none_iff (env : Env) (s : ManagerState)
    (fp np : String) :
    (openAndCache env s fp np).1.1 = none ↔
      (∃ msg, (openAndCache env s fp np).1.2 = some msg) := by
  unfold openAndCache
  rcases env.openStage np s.opens with e | st
  · simp
  · by_cases ht : env.stageTruthy st <;> simp [ht]

theorem remove_of_absent (env : Env) (s : ManagerState) (p : String)
    (hl : lookupKey s.cache (env.resolve p) = none) :
    remove_from_cache env s p = (false, s) := by
  unfold remove_from_cache
  simp [hl]

theorem remove_of_present (env : Env) (s : ManagerState) (p : String)
    (st : Nat) (hl : lookupKey s.cache (env.resolve p) = some st) :
    remove_from_cache env s p =
      (true, { s with cache := eraseKey s.cache (env.resolve p) }) := by
  unfold remove_from_cache
  simp [hl]

theorem openAndCache_mem (env : Env) (s : ManagerState) (fp np : String)
    (e : String × Nat) (he : e ∈ (openAndCache env s fp np).2.cache) :
    e ∈ s.cache ∨
      (env.stageTruthy e.2 = true ∧
        env.openStage e.1 s.opens = Except.ok e.2) := by
  unfold openAndCache at he
  rcases ho : env.openStage np s.opens with er | st
  · rw [ho] at he
    exact Or.inl he
  · rw [ho] at he
    by_cases ht : env.stageTruthy st
    · simp only [ht, Bool.not_true, Bool.false_eq_true, if_false] at he
      rcases mem_insertKey _ _ _ _ he with h' | h'
      · exact Or.inl h'
      · subst h'
        exact Or.inr ⟨ht, ho⟩
    · simp only [ht] at he
      simp at he
      exact Or.inl he

theorem openAndCache_WF (env : Env) (s : ManagerState) (fp np : String)
    (h : WF s) : WF (openAndCache env s fp np).2 := by
  unfold openAndCache
  rcases env.openStage np s.opens with e | st
  · exact h
  · by_cases ht : env.stageTruthy st
    · simp only [ht, Bool.not_true, Bool.false_eq_true, if_false]
      exact nodup_insertKey _ _ _ h
    · simp only [ht]
      simpa using h

theorem reachable_cache_sound (env : Env) (s : ManagerState)
    (h : Reachable env s) :
    ∀ e : String × Nat, e ∈ s.cache →
      env.stageTruthy e.2 = true ∧
        ∃ n, env.openStage e.1 n = Except.ok e.2 := by
  induction h with
  | init =>
    intro e he
    simp [initState] at he
  | step o hr ih =>
    rename_i s'
    intro e he
    cases o with
    | loadOp p =>
      by_cases hv : (validate_file_path env p).1 = true
      · rcases hh : lookupKey s'.cache (env.resolve p) with _ | st
        · have hstep :
              step env s' (Op.loadOp p) =
                (openAndCache env s' p (env.resolve p)).2 := by
            simp [step, load_stage_of_miss env s' p hv hh]
          rw [hstep] at he
          rcases openAndCache_mem env s' p (env.resolve p) e he with h' | h'
          · exact ih e h'
          · exact ⟨h'.1, ⟨s'.opens, h'.2⟩⟩
        · by_cases hval : (env.stageTruthy st && env.rootLayerTruthy st) = true
          · have hstep : step env s' (Op.loadOp p) = s' := by
              simp [step, load_stage_of_hit_valid env s' p st hv hh hval]
            rw [hstep] at he
            exact ih e he
          · have hval' : (env.stageTruthy st && env.rootLayerTruthy st) = false := by
              simpa using hval
            have hstep :
                step env s' (Op.loadOp p) =
                  (openAndCache env
                    { s' with cache := eraseKey s'.cache (env.resolve p) }
                    p (env.resolve p)).2 := by
              simp [step, load_stage_of_hit_invalid env s' p st hv hh hval']
            rw [hstep] at he
            rcases openAndCache_mem env _ p (env.resolve p) e he with h' | h'
            · exact ih e (mem_eraseKey _ _ _ h')
            · exact ⟨h'.1, ⟨s'.opens, h'.2⟩⟩
      · have hv' : (validate_file_path env p).1 = false := by simpa using hv
        have hstep : step env s' (Op.loadOp p) = s' := by
          simp [step, load_stage_of_validate_false env s' p hv']
        rw [hstep] at he
        exact ih e he
    | getCachedOp p => exact ih e he
    | clearOp =>
      simp [step, clear_cache] at he
    | removeOp p =>
      rcases hl : lookupKey s'.cache (env.resolve p) with _ | st
      · have hstep : step env s' (Op.removeOp p) = s' := by
          simp [step, remove_of_absent env s' p hl]
        rw [hstep] at he
        exact ih e he
      · have hstep :
            step env s' (Op.removeOp p) =
              { s' with cache := eraseKey s'.cache (env.resolve p) } := by
          simp [step, remove_of_present env s' p st hl]
        rw [hstep] at he
        exact ih e (mem_eraseKey _ _ _ he)
    | cacheInfoOp => exact ih e he

/-- C1: for two paths that canonicalize to the same absolute location,
`load` of the first followed by `load` of the second performs exactly one
underlying engine open, both calls return the same cached handle, and the
cache holds exactly one entry for that canonical path. -/
theorem C1_same_canonical_single_open (env : Env) (s : ManagerState)
    (p1 p2 : String) (st : Nat)
    (hv1 : (validate_file_path env p1).1 = true)
    (hv2 : (validate_file_path env p2).1 = true)
    (hres : env.resolve p1 = env.resolve p2)
    (hmiss : lookupKey s.cache (env.resolve p1) = none)
    (hopen : env.openStage (env.resolve p1) s.opens = Except.ok st)
    (ht : env.stageTruthy st = true)
    (hr : env.rootLayerTruthy st = true) :
    (load_stage env s p1).1.1 = some st ∧
    (load_stage env (load_stage env s p1).2 p2).1.1 = some st ∧
    (load_stage env (load_stage env s p1).2 p2).2 = (load_stage env s p1).2 ∧
    (load_stage env (load_stage env s p1).2 p2).2.opens = s.opens + 1 ∧
    lookupKey (load_stage env (load_stage env s p1).2 p2).2.cache
      (env.resolve p1) = some st ∧
    keyCount (load_stage env (load_stage env s p1).2 p2).2.cache
      (env.resolve p1) = 1 := by
  have h1 : load_stage env s p1 =
      ((some st, none),
        ⟨insertKey s.cache (env.resolve p1) st, s.opens + 1⟩) := by
    rw [load_stage_of_miss env s p1 hv1 hmiss,
      openAndCache_of_ok env s p1 (env.resolve p1) st hopen ht]
  have hlook :
      lookupKey (insertKey s.cache (env.resolve p1) st) (env.resolve p2) =
        some st := by
    rw [← hres]
    exact lookupKey_insertKey_self _ _ _
  have h2 : load_stage env
      (⟨insertKey s.cache (env.resolve p1) st, s.opens + 1⟩ : ManagerState)
      p2 =
      ((some st, none),
        ⟨insertKey s.cache (env.resolve p1) st, s.opens + 1⟩) :=
    load_stage_of_hit_valid env _ p2 st hv2 hlook (by simp [ht, hr])
  rw [h1, h2]
  exact ⟨rfl, rfl, rfl, rfl, lookupKey_insertKey_self _ _ _,
    keyCount_insertKey _ _ _ hmiss⟩

/-- Witness for C1 in the concrete environment `envOkay`, where the two
distinct relative paths "a.usda" and "b.usda" both resolve to "c.usda". -/
theorem C1_same_canonical_single_open_witness :
    (load_stage envOkay initState "a.usda").1.1 = some 5 ∧
    (load_stage envOkay (load_stage envOkay initState "a.usda").2
      "b.usda").1.1 = some 5 ∧
    (load_stage envOkay (load_stage envOkay initState "a.usda").2
      "b.usda").2.opens = 0 + 1 := by
  have h := C1_same_canonical_single_open envOkay initState "a.usda" "b.usda"
    5 (by decide) (by decide) rfl rfl rfl rfl rfl
  exact ⟨h.1, h.2.1, h.2.2.2.1⟩

/-- C2: a path failing validation (empty, nonexistent, not a regular file,
not readable, or carrying an extension outside the case-insensitive set
{.usd, .usda, .usdc, .usdz} — and those are exactly the failing inputs)
makes `load_stage` return no handle together with the matching taxonomy
message, perform no engine open, and leave the state unchanged. -/
theorem C2_validation_failure (env : Env) (s : ManagerState) (p : String) :
    ((validate_file_path env p).1 = false ↔
      (p = "" ∨ env.pathExists p = false ∨ env.isFile p = false ∨
        env.readable p = false ∨
        valid_extensions.contains (strLower (pathSuffix p)) = false)) ∧
    ((validate_file_path env p).1 = false →
      load_stage env s p = ((none, some (validate_file_path env p).2), s)) ∧
    (p = "" → (validate_file_path env p).2 = "File path cannot be empty") ∧
    (p ≠ "" → env.pathExists p = false →
      (validate_file_path env p).2 = "File does not exist: " ++ p) ∧
    (p ≠ "" → env.pathExists p = true → env.isFile p = false →
      (validate_file_path env p).2 = "Path is not a file: " ++ p) ∧
    (p ≠ "" → env.pathExists p = true → env.isFile p = true →
      env.readable p = false →
      (validate_file_path env p).2 = "File is not readable: " ++ p) ∧
    (p ≠ "" → env.pathExists p = true → env.isFile p = true →
      env.readable p = true →
      valid_extensions.contains (strLower (pathSuffix p)) = false →
      (validate_file_path env p).2 =
        "File does not have a valid USD extension: " ++ p) := by
  refine ⟨?_, fun h => load_stage_of_validate_false env s p h,
    ?_, ?_, ?_, ?_, ?_⟩ <;>
  · by_cases h1 : p = "" <;>
      by_cases h2 : env.pathExists p = true <;>
      by_cases h3 : env.isFile p = true <;>
      by_cases h4 : env.readable p = true <;>
      by_cases h5 : valid_extensions.contains (strLower (pathSuffix p)) =
        true <;>
      simp_all [validate_file_path]

/-- Witness for C2: a path with extension ".txt" is rejected with the
extension message and the state is untouched. -/
theorem C2_validation_failure_witness :
    load_stage envOkay initState "scene.txt" =
      ((none, some "File does not have a valid USD extension: scene.txt"),
        initState) := by
  have h := (C2_validation_failure envOkay initState "scene.txt").2.1
    (by decide)
  rw [h]
  decide

/-- C5: a first load of an uncached path that succeeds through the engine,
followed immediately by a second load: both return the identical handle,
the second call is a pure cache hit (state unchanged), and the open
operation ran exactly once across the two calls. -/
theorem C5_load_idempotent (env : Env) (s : ManagerState) (p : String)
    (st : Nat)
    (hv : (validate_file_path env p).1 = true)
    (hmiss : lookupKey s.cache (env.resolve p) = none)
    (hopen : env.openStage (env.resolve p) s.opens = Except.ok st)
    (ht : env.stageTruthy st = true)
    (hr : env.rootLayerTruthy st = true) :
    (load_stage env s p).1.1 = some st ∧
    (load_stage env (load_stage env s p).2 p).1.1 = some st ∧
    (load_stage env (load_stage env s p).2 p).2 = (load_stage env s p).2 ∧
    (load_stage env (load_stage env s p).2 p).2.opens = s.opens + 1 := by
  have h1 : load_stage env s p =
      ((some st, none),
        ⟨insertKey s.cache (env.resolve p) st, s.opens + 1⟩) := by
    rw [load_stage_of_miss env s p hv hmiss,
      openAndCache_of_ok env s p (env.resolve p) st hopen ht]
  have h2 : load_stage env
      (⟨insertKey s.cache (env.resolve p) st, s.opens + 1⟩ : ManagerState)
      p =
      ((some st, none),
        ⟨insertKey s.cache (env.resolve p) st, s.opens + 1⟩) :=
    load_stage_of_hit_valid env _ p st hv
      (lookupKey_insertKey_self _ _ _) (by simp [ht, hr])
  rw [h1, h2]
  exact ⟨rfl, rfl, rfl, rfl⟩

/-- Witness for C5 in `envOkay`: two loads of "a.usda" return handle 5 and
perform a single open. -/
theorem C5_load_idempotent_witness :
    (load_stage envOkay initState "a.usda").1.1 = some 5 ∧
    (load_stage envOkay (load_stage envOkay initState "a.usda").2
      "a.usda").1.1 = some 5 ∧
    (load_stage envOkay (load_stage envOkay initState "a.usda").2
      "a.usda").2.opens = 0 + 1 := by
  have h := C5_load_idempotent envOkay initState "a.usda" 5 (by decide) rfl
    rfl rfl rfl
  exact ⟨h.1, h.2.1, h.2.2.2⟩

/-- C7: `clear_cache` drops all entries unconditionally, and
`get_cache_info` right after it yields an empty mapping. -/
theorem C7_clear_then_info_empty (env : Env) (s : ManagerState) :
    (clear_cache s).cache = [] ∧ get_cache_info env (clear_cache s) = [] :=
  ⟨rfl, rfl⟩

/-- C3: on a valid, uncached path whose open raises or returns a falsy
handle, `load` returns an error with no handle, stores nothing (the cache
mapping is unchanged), and a subsequent load attempts a fresh open (the
open counter advances again) instead of returning a cached failure. -/
theorem C3_open_failure_not_cached (env : Env) (s : ManagerState)
    (p : String)
    (hv : (validate_file_path env p).1 = true)
    (hmiss : lookupKey s.cache (env.resolve p) = none)
    (hfail : ∀ st, env.openStage (env.resolve p) s.opens = Except.ok st →
      env.stageTruthy st = false) :
    (load_stage env s p).1.1 = none ∧
    (∃ msg, (load_stage env s p).1.2 = some msg) ∧
    (load_stage env s p).2.cache = s.cache ∧
    (load_stage env s p).2.opens = s.opens + 1 ∧
    (load_stage env (load_stage env s p).2 p).2.opens = s.opens + 2 := by
  have hload : load_stage env s p = openAndCache env s p (env.resolve p) :=
    load_stage_of_miss env s p hv hmiss
  have hsecond : ∀ s' : ManagerState, s'.cache = s.cache →
      s'.opens = s.opens + 1 →
      (load_stage env s' p).2.opens = s.opens + 2 := by
    intro s' hc hn
    have hmiss' : lookupKey s'.cache (env.resolve p) = none := by
      rw [hc]
      exact hmiss
    rw [load_stage_of_miss env s' p hv hmiss', openAndCache_opens, hn]
  rcases ho : env.openStage (env.resolve p) s.opens with e | st
  · have hcase := openAndCache_of_error env s p (env.resolve p) e ho
    rw [hload, hcase]
    exact ⟨rfl, ⟨_, rfl⟩, rfl, rfl, hsecond _ rfl rfl⟩
  · have hcase := openAndCache_of_falsy env s p (env.resolve p) st ho
      (hfail st ho)
    rw [hload, hcase]
    exact ⟨rfl, ⟨_, rfl⟩, rfl, rfl, hsecond _ rfl rfl⟩

/-- Witness for C3 in `envRaise`, whose engine raises on every open: the
first load reports an error and caches nothing, and the retry opens
afresh. -/
theorem C3_open_failure_not_cached_witness :
    (load_stage envRaise initState "a.usda").1.1 = none ∧
    (load_stage envRaise initState "a.usda").2.cache = initState.cache ∧
    (load_stage envRaise (load_stage envRaise initState "a.usda").2
      "a.usda").2.opens = 0 + 2 := by
  have h := C3_open_failure_not_cached envRaise initState "a.usda"
    (by decide) rfl
    (fun st hst => by exact absurd hst (by simp [envRaise]))
  exact ⟨h.1, h.2.2.1, h.2.2.2.2⟩

/-- C4: a cached entry failing the validity check at load time is evicted
within that call, the lookup proceeds as a miss with a reopen, and any
handle the call returns comes from the fresh open, never the stale
entry. -/
theorem C4_invalid_entry_evicted (env : Env) (s : ManagerState)
    (p : String) (st : Nat)
    (hv : (validate_file_path env p).1 = true)
    (hh : lookupKey s.cache (env.resolve p) = some st)
    (hinv : (env.stageTruthy st && env.rootLayerTruthy st) = false) :
    load_stage env s p =
      openAndCache env { s with cache := eraseKey s.cache (env.resolve p) }
        p (env.resolve p) ∧
    lookupKey (eraseKey s.cache (env.resolve p)) (env.resolve p) = none ∧
    (load_stage env s p).2.opens = s.opens + 1 ∧
    (∀ st', (load_stage env s p).1.1 = some st' →
      env.openStage (env.resolve p) s.opens = Except.ok st') := by
  have h := load_stage_of_hit_invalid env s p st hv hh hinv
  refine ⟨h, lookupKey_eraseKey_self _ _, ?_, ?_⟩
  · rw [h, openAndCache_opens]
  · intro st' hst'
    rw [h] at hst'
    unfold openAndCache at hst'
    rcases ho : env.openStage (env.resolve p) s.opens with e | st''
    · rw [ho] at hst'
      simp at hst'
    · rw [ho] at hst'
      by_cases ht : env.stageTruthy st''
      · simp only [ht, Bool.not_true, Bool.false_eq_true, if_false] at hst'
        have hss : st'' = st' := by simpa using hst'
        rw [← hss]
      · simp only [ht] at hst'
        simp at hst'

/-- Witness for C4 in `envStale` starting from a state caching the stale
handle 7 (its root layer is not resolvable): the entry is evicted and the
call performs a reopen. -/
theorem C4_invalid_entry_evicted_witness :
    lookupKey (eraseKey [("a.usda", 7)] (envStale.resolve "a.usda"))
      (envStale.resolve "a.usda") = none ∧
    (load_stage envStale ⟨[("a.usda", 7)], 1⟩ "a.usda").2.opens = 1 + 1 := by
  have h := C4_invalid_entry_evicted envStale ⟨[("a.usda", 7)], 1⟩ "a.usda"
    7 (by decide) (by decide) (by decide)
  exact ⟨h.2.1, h.2.2.1⟩

/-- C6: `remove_from_cache` canonicalizes, deletes the entry exactly when
present and reports whether it did; afterwards `get_cached_stage` is
absent and the next `load` performs a fresh engine open. -/
theorem C6_remove_semantics (env : Env) (s : ManagerState) (p : String) :
    ((remove_from_cache env s p).1 = true ↔
      ∃ st, lookupKey s.cache (env.resolve p) = some st) ∧
    ((remove_from_cache env s p).1 = true →
      (remove_from_cache env s p).2.cache =
        eraseKey s.cache (env.resolve p)) ∧
    ((remove_from_cache env s p).1 = false →
      (remove_from_cache env s p).2 = s) ∧
    get_cached_stage env (remove_from_cache env s p).2 p = none ∧
    ((validate_file_path env p).1 = true →
      (load_stage env (remove_from_cache env s p).2 p).2.opens =
        s.opens + 1) := by
  rcases hl : lookupKey s.cache (env.resolve p) with _ | st
  · have hr := remove_of_absent env s p hl
    rw [hr]
    refine ⟨by simp [hl], by simp, fun _ => rfl, hl, fun hv => ?_⟩
    rw [load_stage_of_miss env s p hv hl, openAndCache_opens]
  · have hr := remove_of_present env s p st hl
    rw [hr]
    have hgone :
        lookupKey (eraseKey s.cache (env.resolve p)) (env.resolve p) =
          none := lookupKey_eraseKey_self _ _
    refine ⟨by simp [hl], fun _ => rfl, by simp, hgone, fun hv => ?_⟩
    rw [load_stage_of_miss env _ p hv hgone, openAndCache_opens]

/-- Witness for C6 in `envOkay`: removing a cached entry reports true,
leaves the path uncached, and the next load opens afresh. -/
theorem C6_remove_semantics_witness :
    (remove_from_cache envOkay ⟨[("c.usda", 5)], 1⟩ "a.usda").1 = true ∧
    get_cached_stage envOkay
      (remove_from_cache envOkay ⟨[("c.usda", 5)], 1⟩ "a.usda").2
      "a.usda" = none ∧
    (load_stage envOkay
      (remove_from_cache envOkay ⟨[("c.usda", 5)], 1⟩ "a.usda").2
      "a.usda").2.opens = 1 + 1 := by
  have h := C6_remove_semantics envOkay ⟨[("c.usda", 5)], 1⟩ "a.usda"
  exact ⟨h.1.2 ⟨5, by decide⟩, h.2.2.2.1, h.2.2.2.2 (by decide)⟩

/-- C8 as stated is false on the code: in `envStale` the engine hands out
a stage whose root layer is not resolvable; one `load` caches it (the
store path never re-checks validity), and the resulting reachable state
exposes the invalid entry through `get_cached_stage`. -/
theorem C8_counterexample_invalid_visible :
    ¬ (∀ (env : Env) (s : ManagerState), Reachable env s →
        ∀ p st, get_cached_stage env s p = some st →
          (env.stageTruthy st && env.rootLayerTruthy st) = true) := by
  intro h
  have hreach :
      Reachable envStale (step envStale initState (Op.loadOp "a.usda")) :=
    Reachable.step _ Reachable.init
  have hc := h envStale _ hreach "a.usda" 0 (by decide)
  exact absurd hc (by decide)

/-- C8 amended: invalid entries are evicted only inside `load`'s own
lookup branch; `get_cached_stage` returns a cached entry regardless of its
validity, `get_cache_info` reports it (flagged invalid) instead of
evicting it, and `load` is the operation that evicts it and reopens. -/
theorem C8_amended_invalid_only_evicted_by_load (env : Env)
    (s : ManagerState) (p : String) (st : Nat)
    (hh : lookupKey s.cache (env.resolve p) = some st)
    (hinv : (env.stageTruthy st && env.rootLayerTruthy st) = false) :
    get_cached_stage env s p = some st ∧
    (env.resolve p, StageInfo.invalid "Invalid stage in cache") ∈
      get_cache_info env s ∧
    ((validate_file_path env p).1 = true →
      load_stage env s p =
        openAndCache env
          { s with cache := eraseKey s.cache (env.resolve p) }
          p (env.resolve p)) := by
  refine ⟨hh, ?_, fun hv => load_stage_of_hit_invalid env s p st hv hh hinv⟩
  have hmem := mem_of_lookupKey _ _ _ hh
  unfold get_cache_info
  exact List.mem_map.2 ⟨(env.resolve p, st), hmem, by simp [hinv]⟩

/-- Witness for amended C8 in `envStale`: the stale cached handle 0 is
visible through `get_cached_stage` and listed as invalid by
`get_cache_info`. -/
theorem C8_amended_witness :
    get_cached_stage envStale ⟨[("a.usda", 0)], 1⟩ "a.usda" = some 0 ∧
    ("a.usda", StageInfo.invalid "Invalid stage in cache") ∈
      get_cache_info envStale ⟨[("a.usda", 0)], 1⟩ := by
  have h := C8_amended_invalid_only_evicted_by_load envStale
    ⟨[("a.usda", 0)], 1⟩ "a.usda" 0 (by decide) (by decide)
  exact ⟨h.1, h.2.1⟩

/-- C9: failures surface as error values, never as uncaught faults, and no
failed operation corrupts the mapping: `load` yields no handle exactly
when it yields an error message; an engine raise is caught and converted
into an error value; and load, remove and clear preserve the uniqueness of
the cache's keys. -/
theorem C9_failures_are_error_values (env : Env) (s : ManagerState)
    (p : String) :
    ((load_stage env s p).1.1 = none ↔
      ∃ msg, (load_stage env s p).1.2 = some msg) ∧
    (∀ e, (validate_file_path env p).1 = true →
      lookupKey s.cache (env.resolve p) = none →
      env.openStage (env.resolve p) s.opens = Except.error e →
      load_stage env s p =
        ((none, some ("Error loading USD stage: " ++ e)),
          { s with opens := s.opens + 1 })) ∧
    (WF s → WF (load_stage env s p).2) ∧
    (WF s → WF (remove_from_cache env s p).2) ∧
    WF (clear_cache s) := by
  refine ⟨?_, ?_, ?_, ?_, by simp [WF, clear_cache]⟩
  · by_cases hv : (validate_file_path env p).1 = true
    · rcases hh : lookupKey s.cache (env.resolve p) with _ | st
      · rw [load_stage_of_miss env s p hv hh]
        exact openAndCache_none_iff env s p (env.resolve p)
      · by_cases hval : (env.stageTruthy st && env.rootLayerTruthy st) = true
        · rw [load_stage_of_hit_valid env s p st hv hh hval]
          simp
        · rw [load_stage_of_hit_invalid env s p st hv hh
            (by simpa using hval)]
          exact openAndCache_none_iff env _ p (env.resolve p)
    · rw [load_stage_of_validate_false env s p (by simpa using hv)]
      simp
  · intro e hv hm ho
    rw [load_stage_of_miss env s p hv hm,
      openAndCache_of_error env s p (env.resolve p) e ho]
  · intro hwf
    by_cases hv : (validate_file_path env p).1 = true
    · rcases hh : lookupKey s.cache (env.resolve p) with _ | st
      · rw [load_stage_of_miss env s p hv hh]
        exact openAndCache_WF env s p (env.resolve p) hwf
      · by_cases hval : (env.stageTruthy st && env.rootLayerTruthy st) = true
        · rw [load_stage_of_hit_valid env s p st hv hh hval]
          exact hwf
        · rw [load_stage_of_hit_invalid env s p st hv hh
            (by simpa using hval)]
          exact openAndCache_WF env _ p (env.resolve p)
            (nodup_eraseKey _ _ hwf)
    · rw [load_stage_of_validate_false env s p (by simpa using hv)]
      exact hwf
  · intro hwf
    rcases hl : lookupKey s.cache (env.resolve p) with _ | st
    · rw [remove_of_absent env s p hl]
      exact hwf
    · rw [remove_of_present env s p st hl]
      exact nodup_eraseKey _ _ hwf

/-- Witness for C9 in `envRaise`: the engine's raise is converted into an
error value with no handle and the state keeps its (empty, trivially
unique-keyed) mapping. -/
theorem C9_failures_are_error_values_witness :
    load_stage envRaise initState "a.usda" =
      ((none, some ("Error loading USD stage: " ++ "boom")),
        { initState with opens := 0 + 1 }) :=
  (C9_failures_are_error_values envRaise initState "a.usda").2.1 "boom"
    (by decide) rfl rfl

/-- C10: in every reachable state, every cached value is a truthy stage
handle obtained from a successful engine open (so `get_cached_stage` never
returns a falsy handle for a present key), and the non-load mutating
operations only ever shrink the cache. -/
theorem C10_cache_values_from_successful_opens (env : Env)
    (s : ManagerState) (h : Reachable env s) :
    (∀ e : String × Nat, e ∈ s.cache →
      env.stageTruthy e.2 = true ∧
        ∃ n, env.openStage e.1 n = Except.ok e.2) ∧
    (∀ p st, get_cached_stage env s p = some st →
      env.stageTruthy st = true) ∧
    (∀ p, ∀ e : String × Nat,
      e ∈ (remove_from_cache env s p).2.cache → e ∈ s.cache) ∧
    (∀ e : String × Nat, e ∈ (clear_cache s).cache → e ∈ s.cache) := by
  refine ⟨reachable_cache_sound env s h, ?_, ?_, ?_⟩
  · intro p st hst
    exact (reachable_cache_sound env s h _ (mem_of_lookupKey _ _ _ hst)).1
  · intro p e he
    rcases hl : lookupKey s.cache (env.resolve p) with _ | st
    · rw [remove_of_absent env s p hl] at he
      exact he
    · rw [remove_of_present env s p st hl] at he
      exact mem_eraseKey _ _ _ he
  · intro e he
    simp [clear_cache] at he

/-- Witness for C10: after one load in `envOkay` the reachable state's
single cache entry is the truthy handle 5 produced by the engine open. -/
theorem C10_cache_values_witness :
    envOkay.stageTruthy 5 = true ∧
    ∃ n, envOkay.openStage "c.usda" n = Except.ok 5 :=
  (C10_cache_values_from_successful_opens envOkay
      (step envOkay initState (Op.loadOp "a.usda"))
      (Reachable.step _ Reachable.init)).1 ("c.usda", 5) (by decide)

end StageCache
